import Mathlib

/-
Verification development for the Anonyma PII-anonymization system.

The data model and the frontend behaviours are embedded from the TypeScript
sources (anonyma-frontend/src).  The anonymization core (detectors, ensemble
aggregator, adaptive weight tracker, anonymization modes, pipeline
orchestrator) ships as a separate package whose sources are not in this tree;
those components are modelled from the specification, as indicated on each
definition.

Numbers: JavaScript numbers carrying confidences, weights and progress are
modelled as rationals; byte counts and text offsets as naturals.
-/

namespace Anonyma

/-- Detection record, from `anonyma-frontend/src/types/index.ts` (interface
`Detection`): fields `text`, `entity_type`, `start`, `end`, `confidence`. -/
structure Detection where
  text : String
  entity_type : String
  start : Nat
  «end» : Nat
  confidence : ℚ
  deriving Repr, DecidableEq

/-- Job status values of `JobStatusResponse` in
`anonyma-frontend/src/types/index.ts`. -/
inductive JobStatus where
  | pending
  | processing
  | completed
  | failed
  deriving Repr, DecidableEq

/-- Authenticated user record, from the `User` interface in
`anonyma-frontend/src/context/AuthContext.tsx`. -/
structure AuthUser where
  id : String
  email : String
  username : String
  role : String
  is_active : Bool
  created_at : String
  deriving Repr, DecidableEq

/-- State held by the `AuthProvider` in
`anonyma-frontend/src/context/AuthContext.tsx`: the `user` and `token`
React states (both nullable). -/
structure AuthState where
  user : Option AuthUser
  token : Option String
  deriving Repr, DecidableEq

/-- Embeds `isAuthenticated: !!token` from `AuthContext.tsx`: JavaScript
double negation is truthiness, and a string is truthy iff it is non-null
and non-empty. -/
def isAuthenticated (s : AuthState) : Bool :=
  match s.token with
  | none => false
  | some t => !(t == "")

/-- Embeds `logout` from `AuthContext.tsx`: `setUser(null); setToken(null)`
(the localStorage removals have no counterpart in this state model). -/
def logout (s : AuthState) : AuthState :=
  { s with user := none, token := none }

/-- Embeds JavaScript `Number.prototype.toFixed(1)` for a non-negative
rational: the value rounded to one decimal digit, printed with exactly one
digit after the point. -/
def toFixed1 (q : ℚ) : String :=
  let t : Nat := (round (q * 10) : ℤ).toNat
  toString (t / 10) ++ "." ++ toString (t % 10)

/-- Embeds `formatFileSize` from
`anonyma-frontend/src/pages/DocumentProcessing.tsx`:
`bytes < 1024` gives `bytes + ' B'`, `bytes < 1024*1024` gives
`(bytes/1024).toFixed(1) + ' KB'`, otherwise
`(bytes/(1024*1024)).toFixed(1) + ' MB'`. -/
def formatFileSize (bytes : Nat) : String :=
  if bytes < 1024 then toString bytes ++ " B"
  else if bytes < 1024 * 1024 then toFixed1 ((bytes : ℚ) / 1024) ++ " KB"
  else toFixed1 ((bytes : ℚ) / (1024 * 1024)) ++ " MB"

/-- User row of the admin dashboard, from the fields `filteredUsers` reads in
`anonyma-frontend/src/pages/AdminDashboard.tsx`. -/
structure AdminUser where
  username : String
  email : String
  role : String
  deriving Repr, DecidableEq

/-- Embeds JavaScript `hay.includes(needle)`: `needle` occurs contiguously
inside `hay`. -/
def strIncludes (hay needle : String) : Bool :=
  decide (needle.toList <:+: hay.toList)

/-- Embeds `filteredUsers` from `AdminDashboard.tsx`: keep a user when the
search term is a lowercase substring of the username or the email, and the
role filter is `'all'` or equals the user's role. -/
def filteredUsers (users : List AdminUser) (searchTerm roleFilter : String) :
    List AdminUser :=
  users.filter fun u =>
    (strIncludes u.username.toLower searchTerm.toLower ||
      strIncludes u.email.toLower searchTerm.toLower) &&
    (roleFilter == "all" || u.role == roleFilter)

/-- Generic insertion into a list sorted by the boolean relation `le`. -/
def insertLE {α : Type} (le : α → α → Bool) (a : α) : List α → List α
  | [] => [a]
  | b :: bs => if le a b then a :: b :: bs else b :: insertLE le a bs

/-- Generic insertion sort by the boolean relation `le`. -/
def sortLE {α : Type} (le : α → α → Bool) (l : List α) : List α :=
  l.foldr (insertLE le) []

/-- Anonymization mode values, from `AnonymizeTextRequest.mode` in
`anonyma-frontend/src/types/index.ts`. -/
inductive Mode where
  | redact
  | substitute
  | visual_redact
  deriving Repr, DecidableEq

/-- Anonymization request body, from `AnonymizeTextRequest` in
`anonyma-frontend/src/types/index.ts`. -/
structure AnonymizeRequest where
  text : String
  mode : Mode
  language : String
  use_flair : Bool
  deriving Repr, DecidableEq

/-- Embeds `handleAnonymize` from the `TextAnonymization` page: when
`!inputText.trim()` the handler sets an error and returns without calling
the API (`none`); otherwise it submits the request built from the form
state (`some`). -/
def handleAnonymize (inputText : String) (mode : Mode) (language : String)
    (useFlair : Bool) : Option AnonymizeRequest :=
  if inputText.trim = "" then none
  else some ⟨inputText, mode, language, useFlair⟩

/-- Modelled from the spec: clamping of an adaptive detector weight to
`[0.1, 2.0]` (§4.3; the Adaptive Weight Tracker's source is not in the
tree). -/
def clampWeight (w : ℚ) : ℚ :=
  if w ≤ 1 / 10 then 1 / 10 else if 2 ≤ w then 2 else w

/-- Modelled from the spec: one `report_feedback` update for a contributing
detector — `new_weight = α·signal + (1-α)·old_weight`, clamped to
`[0.1, 2.0]` (§4.3). -/
def updateWeight (a signal w : ℚ) : ℚ :=
  clampWeight (a * signal + (1 - a) * w)

/-- Modelled from the spec: a detector's weight after a sequence of
feedback signals, each applied by `updateWeight` (§4.3). -/
def applyFeedback (a : ℚ) (signals : List ℚ) (w : ℚ) : ℚ :=
  signals.foldl (fun acc s => updateWeight a s acc) w

/-- Replacement of the half-open character span `[s, e)` by `r`. -/
def replaceSpan (cs : List Char) (s e : Nat) (r : List Char) : List Char :=
  cs.take s ++ r ++ cs.drop e

/-- Redaction placeholder `"[ENTITY_TYPE]"` for an entity type. -/
def placeholder (entityType : String) : List Char :=
  '[' :: entityType.toList ++ [']']

/-- Detections ordered by start offset descending. -/
def sortByStartDesc (ds : List Detection) : List Detection :=
  sortLE (fun a b => decide (b.start ≤ a.start)) ds

/-- Modelled from the spec: the Redact anonymization mode (§4.4; the mode
strategy's source is not in the tree) — each detected span is replaced by
`"[ENTITY_TYPE]"`, processing spans in descending offset order. -/
def redactChars (cs : List Char) (ds : List Detection) : List Char :=
  (sortByStartDesc ds).foldl
    (fun acc d => replaceSpan acc d.start d.«end» (placeholder d.entity_type)) cs

/-- Modelled from the spec: Redact on a string (§4.4). -/
def redact (text : String) (ds : List Detection) : String :=
  String.mk (redactChars text.toList ds)

/-- Modelled from the spec: the orchestrator's job phases
`Queued → Extracting → Detecting → Anonymizing → Reconstructing →
Completed | Failed` (§4.7; the orchestrator's source is not in the tree). -/
inductive JobPhase where
  | Queued
  | Extracting
  | Detecting
  | Anonymizing
  | Reconstructing
  | Completed
  | Failed
  deriving Repr, DecidableEq

/-- Position of a phase along the success path; `Failed` shares the
terminal position. -/
def phaseIndex : JobPhase → Nat
  | .Queued => 0
  | .Extracting => 1
  | .Detecting => 2
  | .Anonymizing => 3
  | .Reconstructing => 4
  | .Completed => 5
  | .Failed => 5

/-- Modelled from the spec: the successor phase on the success path (§4.7);
`Completed` and `Failed` have none. -/
def nextPhase : JobPhase → Option JobPhase
  | .Queued => some .Extracting
  | .Extracting => some .Detecting
  | .Detecting => some .Anonymizing
  | .Anonymizing => some .Reconstructing
  | .Reconstructing => some .Completed
  | .Completed => none
  | .Failed => none

/-- Modelled from the spec: the job state machine's transition relation
(§4.7) — either advance to the unique next phase, or move from a
non-terminal phase directly to `Failed` on an adapter failure. -/
inductive JobStep : JobPhase → JobPhase → Prop where
  | advance (s s' : JobPhase) : nextPhase s = some s' → JobStep s s'
  | fail (s : JobPhase) : s ≠ .Completed → s ≠ .Failed → JobStep s .Failed

/-- Statuses at which the client stops polling, from `startPolling` in
`DocumentProcessing.tsx`: `status === 'completed' || status === 'failed'`. -/
def isTerminal (s : JobStatus) : Bool :=
  s == .completed || s == .failed

/-- Embeds the polling loop of `startPolling` in `DocumentProcessing.tsx`
over the sequence of statuses the server would report: each tick observes
one status; on `completed` or `failed` the interval is cleared and no
further status is fetched. -/
def pollLoop : List JobStatus → List JobStatus
  | [] => []
  | s :: rest => if isTerminal s then [s] else s :: pollLoop rest

/-- Modelled from the spec: the fractional progress the orchestrator
reports for a phase (a fraction of the five-phase success path, §6:
progress callbacks are in `0..1`). -/
def progressOf (p : JobPhase) : ℚ :=
  (phaseIndex p : ℚ) / 5

/-- Embeds the progress text of `DocumentProcessing.tsx`:
`Math.round(jobStatus.progress * 100)` rendered next to `%`. -/
def displayedPct (progress : ℚ) : ℤ :=
  round (progress * 100)

/-- Modelled from the spec: a raw per-detector vote
`{entity_type, start, end, confidence}` (§3), tagged with the emitting
detector's id, which the aggregator needs for weights and vote counts. -/
structure DetectorVote where
  detector_id : String
  entity_type : String
  start : Nat
  «end» : Nat
  confidence : ℚ
  deriving Repr, DecidableEq

/-- Clamping of a confidence to `[0, 1]`, the invariant of `DetectorVote`
in the spec's data model (§3). -/
def clamp01 (q : ℚ) : ℚ :=
  if q ≤ 0 then 0 else if 1 ≤ q then 1 else q

/-- Modelled from the spec: a detector (§4.1; the detector sources are not
in the tree).  Rule-based, neural and custom-pattern detectors differ only
in which spans of the text they vote for and with which entity type and
confidence, so a detector is modelled by those three functions of the
span. -/
structure DetectorSpec where
  id : String
  matchesSpan : String → Nat → Nat → Bool
  entityTypeOf : String → Nat → Nat → String
  rawConf : String → Nat → Nat → ℚ

/-- Modelled from the spec: `detect(text, language)` for one detector —
one vote for every half-open span `[i, j)` of the text the detector's
pattern matches, with confidence clamped to `[0, 1]` (§3, §4.1). -/
def detectorVotes (d : DetectorSpec) (text : String) : List DetectorVote :=
  (List.range (text.length + 1)).flatMap fun i =>
    (List.range (text.length + 1)).filterMap fun j =>
      if i < j ∧ j ≤ text.length ∧ d.matchesSpan text i j = true then
        some ⟨d.id, d.entityTypeOf text i j, i, j, clamp01 (d.rawConf text i j)⟩
      else none

/-- Modelled from the spec: the join-barrier vote collection over all
active detectors (§4.2 step 1). -/
def collectVotes (ds : List DetectorSpec) (text : String) : List DetectorVote :=
  ds.flatMap fun d => detectorVotes d text

/-- Votes ordered by start offset ascending, the order in which the
aggregator clusters them. -/
def sortVotesAsc (vs : List DetectorVote) : List DetectorVote :=
  sortLE (fun a b => decide (a.start ≤ b.start)) vs

/-- Greedy accumulation of overlap clusters: `cur` is the open cluster
(reversed) and `curEnd` the maximal end offset seen in it; a vote starting
before `curEnd` intersects the cluster's range and joins it. -/
def clusterAux (cur : List DetectorVote) (curEnd : Nat) :
    List DetectorVote → List (List DetectorVote)
  | [] => [cur.reverse]
  | v :: vs =>
    if v.start < curEnd then clusterAux (v :: cur) (max curEnd v.«end») vs
    else cur.reverse :: clusterAux [v] v.«end» vs

/-- Modelled from the spec: clustering of overlapping spans — two spans
overlap when their offset ranges intersect (§4.2 step 2); the votes are
assumed sorted by start. -/
def clusterVotes : List DetectorVote → List (List DetectorVote)
  | [] => []
  | v :: vs => clusterAux [v] v.«end» vs

/-- Total weight of a cluster under a weight profile. -/
def clusterWeight (ws : String → ℚ) (c : List DetectorVote) : ℚ :=
  (c.map fun v => ws v.detector_id).sum

/-- Weighted sum of the confidences of a cluster. -/
def clusterWeightedConf (ws : String → ℚ) (c : List DetectorVote) : ℚ :=
  (c.map fun v => ws v.detector_id * v.confidence).sum

/-- Modelled from the spec: a cluster's confidence is the weight-weighted
average of the participating confidences (§4.2 step 3). -/
def clusterConfidence (ws : String → ℚ) (c : List DetectorVote) : ℚ :=
  clusterWeightedConf ws c / clusterWeight ws c

/-- Total weight backing one entity type inside a cluster. -/
def typeWeight (ws : String → ℚ) (c : List DetectorVote) (t : String) : ℚ :=
  ((c.filter fun v => v.entity_type == t).map fun v => ws v.detector_id).sum

/-- First-seen-wins argmax over candidate entity types by `typeWeight`. -/
def argmaxType (ws : String → ℚ) (c : List DetectorVote) :
    List String → String → String
  | [], best => best
  | t :: ts, best =>
    if typeWeight ws c best < typeWeight ws c t then argmaxType ws c ts t
    else argmaxType ws c ts best

/-- Modelled from the spec: a cluster's entity type by weighted-majority
vote (§4.2 step 3). -/
def majorityType (ws : String → ℚ) (c : List DetectorVote) : String :=
  match c.map (fun v => v.entity_type) with
  | [] => ""
  | t :: ts => argmaxType ws c ts t

/-- Least start offset of a cluster. -/
def clusterStart : List DetectorVote → Nat
  | [] => 0
  | v :: vs => vs.foldl (fun a w => min a w.start) v.start

/-- Greatest end offset of a cluster. -/
def clusterEnd : List DetectorVote → Nat
  | [] => 0
  | v :: vs => vs.foldl (fun a w => max a w.«end») v.«end»

/-- Substring of the source text covering the half-open span `[s, e)`. -/
def textSlice (text : String) (s e : Nat) : String :=
  String.mk ((text.toList.take e).drop s)

/-- Modelled from the spec: the full Detection of the data model (§3) —
the frontend record's five fields plus contributing detector ids and
`vote_count`. -/
structure EnsembleDetection where
  text : String
  entity_type : String
  start : Nat
  «end» : Nat
  confidence : ℚ
  detector_ids : List String
  vote_count : Nat
  deriving Repr, DecidableEq

/-- Projection onto the frontend's five-field `Detection` record. -/
def EnsembleDetection.toDetection (d : EnsembleDetection) : Detection :=
  ⟨d.text, d.entity_type, d.start, d.«end», d.confidence⟩

/-- Modelled from the spec: the detection built from one overlap cluster —
union span, weighted-majority entity type, weight-weighted average
confidence, distinct contributing detectors (§4.2 step 3). -/
def clusterToDetection (ws : String → ℚ) (text : String)
    (c : List DetectorVote) : EnsembleDetection :=
  let s := clusterStart c
  let e := clusterEnd c
  { text := textSlice text s e
    entity_type := majorityType ws c
    start := s
    «end» := e
    confidence := clusterConfidence ws c
    detector_ids := (c.map fun v => v.detector_id).dedup
    vote_count := (c.map fun v => v.detector_id).dedup.length }

/-- Modelled from the spec: the four voting-strategy gates (§4.2 step 4). -/
inductive VotingStrategy where
  | unanimous
  | majority
  | any
  | weighted
  deriving Repr, DecidableEq

/-- Modelled from the spec: the gate a cluster's detection must pass —
`unanimous`: every active detector contributed; `majority`: more than half
did; `any`: at least one did; `weighted` (default): weighted confidence at
least `min_confidence` (§4.2 step 4). -/
def passesGate (strategy : VotingStrategy) (activeCount : Nat) (minConf : ℚ)
    (d : EnsembleDetection) : Bool :=
  match strategy with
  | .unanimous => d.vote_count == activeCount
  | .majority => decide (activeCount < 2 * d.vote_count)
  | .any => decide (1 ≤ d.vote_count)
  | .weighted => decide (minConf ≤ d.confidence)

/-- Ordering of final detections: by start, tie-break by longer span, then
by higher confidence (§4.2 step 6). -/
def detectionLE (a b : EnsembleDetection) : Bool :=
  if a.start ≠ b.start then decide (a.start < b.start)
  else if a.«end» ≠ b.«end» then decide (b.«end» < a.«end»)
  else decide (b.confidence ≤ a.confidence)

/-- Modelled from the spec: the ensemble aggregator (§4.2; the aggregator's
source is not in the tree) — collect votes, cluster overlapping spans,
build one detection per cluster, apply the voting gate, reject zero-width
or out-of-bounds spans, and sort the survivors. -/
def aggregate (ws : String → ℚ) (strategy : VotingStrategy) (minConf : ℚ)
    (ds : List DetectorSpec) (text : String) : List EnsembleDetection :=
  let votes := sortVotesAsc (collectVotes ds text)
  let cands := (clusterVotes votes).map (clusterToDetection ws text)
  let survivors :=
    (cands.filter (passesGate strategy ds.length minConf)).filter fun d =>
      decide (d.start < d.«end») && decide (d.«end» ≤ text.length)
  sortLE detectionLE survivors

/-- Source text of the spec's Redact scenario (§8). -/
def exText : String :=
  "Contact John Smith at john.smith@example.com, phone 555-0100."

/-- Detections of the spec's Redact scenario (§8): the PERSON, EMAIL and
PHONE spans of `exText`, at their offsets in that text, with confidences
above the default 0.6 gate. -/
def exDets : List Detection :=
  [⟨"John Smith", "PERSON", 8, 18, 92 / 100⟩,
   ⟨"john.smith@example.com", "EMAIL", 22, 44, 99 / 100⟩,
   ⟨"555-0100", "PHONE", 52, 60, 85 / 100⟩]

/-- Concrete person-NER detector voting for the single span `[0, 4)` with
confidence 0.9, used to exercise the aggregator on real input. -/
def johnDetector : DetectorSpec :=
  { id := "person-ner"
    matchesSpan := fun _ i j => i == 0 && j == 4
    entityTypeOf := fun _ _ _ => "PERSON"
    rawConf := fun _ _ _ => 9 / 10 }

theorem mem_insertLE {α : Type} (le : α → α → Bool) (a : α) (l : List α)
    (x : α) : x ∈ insertLE le a l ↔ x = a ∨ x ∈ l := by
  induction l with
  | nil => simp [insertLE]
  | cons b bs ih =>
    simp only [insertLE]
    split
    · simp [List.mem_cons]
    · simp only [List.mem_cons, ih]
      tauto

theorem mem_sortLE {α : Type} (le : α → α → Bool) (l : List α) (x : α) :
    x ∈ sortLE le l ↔ x ∈ l := by
  induction l with
  | nil => simp [sortLE]
  | cons b bs ih =>
    simp only [sortLE, List.foldr_cons] at ih ⊢
    rw [mem_insertLE, ih, List.mem_cons]

theorem clamp01_nonneg (q : ℚ) : 0 ≤ clamp01 q := by
  unfold clamp01
  split
  next h => exact le_rfl
  next h =>
    split
    next h2 => norm_num
    next h2 => linarith [not_le.1 h]

theorem clamp01_le_one (q : ℚ) : clamp01 q ≤ 1 := by
  unfold clamp01
  split
  next h => norm_num
  next h =>
    split
    next h2 => exact le_rfl
    next h2 => linarith [not_le.1 h2]

theorem detectorVotes_conf {d : DetectorSpec} {text : String}
    {v : DetectorVote} (hv : v ∈ detectorVotes d text) :
    0 ≤ v.confidence ∧ v.confidence ≤ 1 := by
  simp only [detectorVotes, List.mem_flatMap, List.mem_filterMap] at hv
  obtain ⟨i, -, j, -, hj⟩ := hv
  split at hj
  · cases hj
    exact ⟨clamp01_nonneg _, clamp01_le_one _⟩
  · exact absurd hj (by simp)

theorem collectVotes_conf {ds : List DetectorSpec} {text : String}
    {v : DetectorVote} (hv : v ∈ collectVotes ds text) :
    0 ≤ v.confidence ∧ v.confidence ≤ 1 := by
  simp only [collectVotes, List.mem_flatMap] at hv
  obtain ⟨d, -, hd⟩ := hv
  exact detectorVotes_conf hd

theorem mem_of_mem_clusterAux {v : DetectorVote} :
    ∀ (vs cur : List DetectorVote) (curEnd : Nat) (c : List DetectorVote),
      c ∈ clusterAux cur curEnd vs → v ∈ c → v ∈ cur ∨ v ∈ vs := by
  intro vs
  induction vs with
  | nil =>
    intro cur curEnd c hc hv
    simp only [clusterAux, List.mem_singleton] at hc
    subst hc
    exact Or.inl (List.mem_reverse.1 hv)
  | cons w ws ih =>
    intro cur curEnd c hc hv
    simp only [clusterAux] at hc
    split at hc
    · rcases ih _ _ _ hc hv with h | h
      · rcases List.mem_cons.1 h with h | h
        · exact Or.inr (h ▸ List.mem_cons_self w ws)
        · exact Or.inl h
      · exact Or.inr (List.mem_cons_of_mem w h)
    · rcases List.mem_cons.1 hc with h | h
      · subst h
        exact Or.inl (List.mem_reverse.1 hv)
      · rcases ih _ _ _ h hv with h' | h'
        · rw [List.mem_singleton] at h'
          exact Or.inr (h' ▸ List.mem_cons_self w ws)
        · exact Or.inr (List.mem_cons_of_mem w h')

theorem clusterAux_ne_nil :
    ∀ (vs cur : List DetectorVote) (curEnd : Nat) (c : List DetectorVote),
      cur ≠ [] → c ∈ clusterAux cur curEnd vs → c ≠ [] := by
  intro vs
  induction vs with
  | nil =>
    intro cur curEnd c hcur hc
    simp only [clusterAux, List.mem_singleton] at hc
    subst hc
    simpa [List.reverse_eq_nil_iff] using hcur
  | cons w ws ih =>
    intro cur curEnd c hcur hc
    simp only [clusterAux] at hc
    split at hc
    · exact ih _ _ _ (by simp) hc
    · rcases List.mem_cons.1 hc with h | h
      · subst h
        simpa [List.reverse_eq_nil_iff] using hcur
      · exact ih _ _ _ (by simp) h

theorem mem_of_mem_clusterVotes {vs c : List DetectorVote} {v : DetectorVote}
    (hc : c ∈ clusterVotes vs) (hv : v ∈ c) : v ∈ vs := by
  cases vs with
  | nil => simp [clusterVotes] at hc
  | cons w ws =>
    simp only [clusterVotes] at hc
    rcases mem_of_mem_clusterAux ws [w] _ c hc hv with h | h
    · rw [List.mem_singleton] at h
      exact h ▸ List.mem_cons_self w ws
    · exact List.mem_cons_of_mem w h

theorem clusterVotes_ne_nil {vs c : List DetectorVote}
    (hc : c ∈ clusterVotes vs) : c ≠ [] := by
  cases vs with
  | nil => simp [clusterVotes] at hc
  | cons w ws =>
    simp only [clusterVotes] at hc
    exact clusterAux_ne_nil ws [w] _ c (by simp) hc

theorem clusterWeight_pos {ws : String → ℚ} {c : List DetectorVote}
    (h : ∀ v ∈ c, 0 < ws v.detector_id) (hne : c ≠ []) :
    0 < clusterWeight ws c := by
  induction c with
  | nil => exact absurd rfl hne
  | cons v vs ih =>
    simp only [clusterWeight, List.map_cons, List.sum_cons]
    have h1 : 0 < ws v.detector_id := h v (List.mem_cons_self v vs)
    rcases eq_or_ne vs [] with rfl | hvs
    · simpa using h1
    · have h2 := ih (fun u hu => h u (List.mem_cons_of_mem v hu)) hvs
      simp only [clusterWeight] at h2
      linarith

theorem clusterWeightedConf_nonneg {ws : String → ℚ} {c : List DetectorVote}
    (hw : ∀ v ∈ c, 0 ≤ ws v.detector_id)
    (hc : ∀ v ∈ c, 0 ≤ v.confidence) :
    0 ≤ clusterWeightedConf ws c := by
  induction c with
  | nil => simp [clusterWeightedConf]
  | cons v vs ih =>
    simp only [clusterWeightedConf, List.map_cons, List.sum_cons]
    have := ih (fun u hu => hw u (List.mem_cons_of_mem v hu))
      (fun u hu => hc u (List.mem_cons_of_mem v hu))
    simp only [clusterWeightedConf] at this
    have h1 := mul_nonneg (hw v (List.mem_cons_self v vs))
      (hc v (List.mem_cons_self v vs))
    linarith

theorem clusterWeightedConf_le {ws : String → ℚ} {c : List DetectorVote}
    (hw : ∀ v ∈ c, 0 ≤ ws v.detector_id)
    (hc : ∀ v ∈ c, v.confidence ≤ 1) :
    clusterWeightedConf ws c ≤ clusterWeight ws c := by
  induction c with
  | nil => simp [clusterWeightedConf, clusterWeight]
  | cons v vs ih =>
    simp only [clusterWeightedConf, clusterWeight, List.map_cons,
      List.sum_cons]
    have h2 := ih (fun u hu => hw u (List.mem_cons_of_mem v hu))
      (fun u hu => hc u (List.mem_cons_of_mem v hu))
    simp only [clusterWeightedConf, clusterWeight] at h2
    have h1 : ws v.detector_id * v.confidence ≤ ws v.detector_id := by
      calc ws v.detector_id * v.confidence
          ≤ ws v.detector_id * 1 :=
            mul_le_mul_of_nonneg_left (hc v (List.mem_cons_self v vs))
              (hw v (List.mem_cons_self v vs))
        _ = ws v.detector_id := mul_one _
    linarith

theorem clusterConfidence_bounds {ws : String → ℚ} {c : List DetectorVote}
    (hwpos : ∀ v ∈ c, 0 < ws v.detector_id) (hne : c ≠ [])
    (h0 : ∀ v ∈ c, 0 ≤ v.confidence) (h1 : ∀ v ∈ c, v.confidence ≤ 1) :
    0 ≤ clusterConfidence ws c ∧ clusterConfidence ws c ≤ 1 := by
  have hpos := clusterWeight_pos hwpos hne
  constructor
  · exact div_nonneg
      (clusterWeightedConf_nonneg (fun v hv => (hwpos v hv).le) h0) hpos.le
  · rw [clusterConfidence, div_le_one hpos]
    exact clusterWeightedConf_le (fun v hv => (hwpos v hv).le) h1

theorem aggregate_john :
    aggregate (fun _ => 1) .weighted (6/10) [johnDetector] "John" =
      [⟨"John", "PERSON", 0, 4, 9/10, ["person-ner"], 1⟩] := by
  simp +decide only [aggregate, collectVotes, detectorVotes,
    show ("John" : String).length = 4 by decide, List.range_succ,
    List.range_zero, List.flatMap_cons, List.flatMap_nil, List.filterMap_cons,
    List.filterMap_nil, List.flatMap_append, List.filterMap_append,
    List.append_nil, List.nil_append, List.cons_append,
    sortVotesAsc, sortLE, insertLE, clusterVotes, clusterAux,
    clusterToDetection, clusterStart, clusterEnd, clusterConfidence,
    clusterWeightedConf, clusterWeight, majorityType, argmaxType, typeWeight,
    textSlice, passesGate, detectionLE, clamp01, johnDetector,
    List.foldr_cons, List.foldr_nil, List.foldl_cons, List.foldl_nil,
    List.map_cons, List.map_nil, List.filter_cons, List.filter_nil,
    List.sum_cons, List.sum_nil, List.dedup_cons_of_not_mem, List.dedup_nil,
    List.reverse_cons, List.reverse_nil, EnsembleDetection.toDetection]
  norm_num [insertLE, clusterAux, clusterToDetection, clusterStart,
    clusterEnd, clusterConfidence, clusterWeightedConf, clusterWeight,
    majorityType, argmaxType, typeWeight, textSlice, passesGate, detectionLE,
    List.dedup_cons_of_not_mem, sortLE, insertLE]

/-- C1: every Detection produced by the ensemble has its confidence in
`[0, 1]` and offsets with `start < end ≤ length` of the source text, on
the Detection record's fields `text`, `entity_type`, `start`, `end`,
`confidence`, provided every detector weight is positive (the
WeightProfile keeps weights in `[0.1, 2.0]`). -/
theorem detection_invariants_c1
    (ws : String → ℚ) (strategy : VotingStrategy) (minConf : ℚ)
    (dets : List DetectorSpec) (text : String)
    (hw : ∀ id, 0 < ws id) :
    ∀ ed ∈ aggregate ws strategy minConf dets text,
      ed.toDetection.start < ed.toDetection.«end» ∧
      ed.toDetection.«end» ≤ text.length ∧
      0 ≤ ed.toDetection.confidence ∧ ed.toDetection.confidence ≤ 1 := by
  intro ed hed
  simp only [aggregate] at hed
  rw [mem_sortLE, List.mem_filter] at hed
  obtain ⟨hed1, hspan⟩ := hed
  rw [List.mem_filter] at hed1
  obtain ⟨hmem, -⟩ := hed1
  rw [List.mem_map] at hmem
  obtain ⟨c, hc, rfl⟩ := hmem
  have hne := clusterVotes_ne_nil hc
  have hvc : ∀ v ∈ c, 0 ≤ v.confidence ∧ v.confidence ≤ 1 := by
    intro v hv
    have h1 := mem_of_mem_clusterVotes hc hv
    simp only [sortVotesAsc] at h1
    rw [mem_sortLE] at h1
    exact collectVotes_conf h1
  have hcb := clusterConfidence_bounds (fun v _ => hw v.detector_id) hne
    (fun v hv => (hvc v hv).1) (fun v hv => (hvc v hv).2)
  simp only [clusterToDetection, Bool.and_eq_true, decide_eq_true_eq]
    at hspan
  simp only [EnsembleDetection.toDetection, clusterToDetection]
  exact ⟨hspan.1, hspan.2, hcb.1, hcb.2⟩

/-- Witness for C1: a concrete one-detector run on `"John"` produces the
PERSON detection, and the theorem instantiates to it. -/
theorem detection_invariants_c1_witness :
    ((⟨"John", "PERSON", 0, 4, 9/10, ["person-ner"], 1⟩ :
        EnsembleDetection) ∈
      aggregate (fun _ => 1) .weighted (6/10) [johnDetector] "John") ∧
    ((⟨"John", "PERSON", 0, 4, 9/10, ["person-ner"], 1⟩ :
        EnsembleDetection).toDetection.start <
      (⟨"John", "PERSON", 0, 4, 9/10, ["person-ner"], 1⟩ :
        EnsembleDetection).toDetection.«end» ∧
     (⟨"John", "PERSON", 0, 4, 9/10, ["person-ner"], 1⟩ :
        EnsembleDetection).toDetection.«end» ≤ ("John" : String).length ∧
     0 ≤ (⟨"John", "PERSON", 0, 4, 9/10, ["person-ner"], 1⟩ :
        EnsembleDetection).toDetection.confidence ∧
     (⟨"John", "PERSON", 0, 4, 9/10, ["person-ner"], 1⟩ :
        EnsembleDetection).toDetection.confidence ≤ 1) := by
  have hmem : (⟨"John", "PERSON", 0, 4, 9/10, ["person-ner"], 1⟩ :
      EnsembleDetection) ∈
      aggregate (fun _ => 1) .weighted (6/10) [johnDetector] "John" := by
    rw [aggregate_john]
    exact List.mem_singleton_self _
  exact ⟨hmem,
    detection_invariants_c1 (fun _ => 1) .weighted (6/10) [johnDetector]
      "John" (fun _ => by norm_num) _ hmem⟩

/-- C2: the job status advances strictly sequentially along
`Queued → Extracting → Detecting → Anonymizing → Reconstructing` and ends
at `Completed` or `Failed` (every transition either increments the phase
position by one or jumps to `Failed`); `Completed` and `Failed` admit no
further transition, and the polling client stops at the first terminal
status it observes — nothing follows a terminal status in the observed
sequence. -/
theorem job_lifecycle_c2 :
    (∀ s', ¬ JobStep .Completed s') ∧
    (∀ s', ¬ JobStep .Failed s') ∧
    (∀ s s', JobStep s s' → s' = .Failed ∨ phaseIndex s' = phaseIndex s + 1) ∧
    (∀ seq l₁ s l₂, pollLoop seq = l₁ ++ s :: l₂ → isTerminal s = true →
      l₂ = []) := by
  refine ⟨?_, ?_, ?_, ?_⟩
  · intro s' h
    cases h with
    | advance _ h => simp [nextPhase] at h
    | fail h1 h2 => exact h1 rfl
  · intro s' h
    cases h with
    | advance _ h => simp [nextPhase] at h
    | fail h1 h2 => exact h2 rfl
  · intro s s' h
    cases h with
    | advance _ h =>
      refine Or.inr ?_
      cases s <;> simp only [nextPhase] at h <;>
        (try exact Option.noConfusion h) <;>
        (injection h with h; subst h; rfl)
    | fail => exact Or.inl rfl
  · intro seq
    induction seq with
    | nil =>
      intro l₁ s l₂ h ht
      exact absurd h.symm (by simp [pollLoop])
    | cons a rest ih =>
      intro l₁ s l₂ h ht
      simp only [pollLoop] at h
      split at h
      next hta =>
        cases l₁ with
        | nil =>
          rw [List.nil_append, List.cons.injEq] at h
          exact h.2.symm
        | cons x xs =>
          rw [List.cons_append, List.cons.injEq] at h
          exact absurd h.2.symm (by simp)
      next hta =>
        cases l₁ with
        | nil =>
          rw [List.nil_append, List.cons.injEq] at h
          exact absurd (h.1 ▸ ht) hta
        | cons x xs =>
          rw [List.cons_append, List.cons.injEq] at h
          exact ih xs s l₂ h.2 ht

/-- Witness for C2: the step `Queued → Extracting` advances the phase
position by one, and a poll run observing `processing` then `completed`
has nothing after the terminal status. -/
theorem job_lifecycle_c2_witness :
    (JobPhase.Extracting = JobPhase.Failed ∨
      phaseIndex .Extracting = phaseIndex .Queued + 1) ∧
    ([] : List JobStatus) = [] :=
  ⟨job_lifecycle_c2.2.2.1 .Queued .Extracting (JobStep.advance _ _ rfl),
   job_lifecycle_c2.2.2.2 [.processing, .completed] [.processing]
     .completed [] (by decide) (by decide)⟩

theorem detectorVotes_empty (d : DetectorSpec) : detectorVotes d "" = [] :=
  rfl

theorem collectVotes_empty (ds : List DetectorSpec) :
    collectVotes ds "" = [] := by
  induction ds with
  | nil => rfl
  | cons d rest ih =>
    simp only [collectVotes, List.flatMap_cons] at ih ⊢
    rw [detectorVotes_empty, List.nil_append]
    exact ih

/-- C3: on empty input text every detector returns no votes, the
aggregator returns no detections (no exception anywhere: both are total
functions), and the frontend never submits a request whose text is
empty. -/
theorem empty_text_c3 :
    (∀ d : DetectorSpec, detectorVotes d "" = []) ∧
    (∀ (ws : String → ℚ) (strategy : VotingStrategy) (minConf : ℚ)
      (ds : List DetectorSpec), aggregate ws strategy minConf ds "" = []) ∧
    (∀ (m : Mode) (l : String) (f : Bool), handleAnonymize "" m l f = none) := by
  refine ⟨fun d => rfl, fun ws st mc ds => ?_, fun m l f => ?_⟩
  · simp only [aggregate, collectVotes_empty]
    rfl
  · have h : "".trim = "" := by
      simp [String.trim, Substring.trim, String.toSubstring,
        Substring.trimLeft, Substring.trimRight, Substring.takeWhileAux,
        Substring.takeRightWhileAux, Substring.toString, String.extract]
    simp [handleAnonymize, h]

/-- C4 counterexample: at progress 1/3 the displayed percentage is the
rounded 33, not the exact product 100/3, so "the displayed percentage
equals progress multiplied by 100" fails as stated. -/
theorem progress_display_c4_counterexample :
    ((displayedPct (1/3) : ℚ) ≠ (1/3) * 100) := by
  have h : displayedPct (1/3) = 33 := by
    show round ((1/3 : ℚ) * 100) = 33
    rw [round_eq]
    norm_num
  rw [h]
  norm_num

/-- C4 (amended): every progress value the orchestrator emits is a
fraction in `[0, 1]`, and the displayed percentage equals the progress
multiplied by 100 and rounded to the nearest integer — within 1/2 of the
exact product, and equal to it whenever the product is a whole number. -/
theorem progress_display_c4 :
    (∀ p : JobPhase, 0 ≤ progressOf p ∧ progressOf p ≤ 1) ∧
    (∀ q : ℚ, |(displayedPct q : ℚ) - q * 100| ≤ 1/2) ∧
    (∀ (q : ℚ) (n : ℤ), q * 100 = (n : ℚ) → displayedPct q = n) := by
  refine ⟨?_, ?_, ?_⟩
  · intro p
    cases p <;> constructor <;> norm_num [progressOf, phaseIndex]
  · intro q
    rw [abs_sub_comm]
    exact abs_sub_round (q * 100)
  · intro q n h
    show round (q * 100) = n
    rw [h, round_intCast]

/-- Witness for C4: at progress 1/4 the product is the whole number 25 and
the display shows exactly 25. -/
theorem progress_display_c4_witness :
    (1/4 : ℚ) * 100 = ((25 : ℤ) : ℚ) ∧ displayedPct (1/4) = 25 :=
  ⟨by norm_num, progress_display_c4.2.2 (1/4) 25 (by norm_num)⟩

/-- C5: Redact replaces each detected span with `"[ENTITY_TYPE]"`; on the
scenario text with its PERSON, EMAIL and PHONE detections the output is
`"Contact [PERSON] at [EMAIL], phone [PHONE]."` with 3 detections, and a
replacement at offsets `[s, e)` leaves every earlier offset `k ≤ s`
untouched, which is why descending-order processing keeps earlier offsets
valid. -/
theorem redact_mode_c5 :
    redact exText exDets = "Contact [PERSON] at [EMAIL], phone [PHONE]." ∧
    exDets.length = 3 ∧
    (∀ (cs : List Char) (s e k : Nat) (r : List Char),
      k ≤ s → s < e → e ≤ cs.length →
      (replaceSpan cs s e r).take k = cs.take k) := by
  refine ⟨by decide, rfl, ?_⟩
  intro cs s e k r hks hse hel
  unfold replaceSpan
  have hs : s ≤ cs.length := le_trans hse.le hel
  have hlen : (cs.take s).length = s := by
    rw [List.length_take]
    exact min_eq_left hs
  rw [List.append_assoc,
    List.take_append_of_le_length (by rw [hlen]; exact hks),
    List.take_take, min_eq_left hks]

/-- Witness for C5: replacing the PERSON span `[8, 18)` of the scenario
text leaves the first 8 characters unchanged. -/
theorem redact_mode_c5_witness :
    (8 ≤ 8 ∧ 8 < 18 ∧ 18 ≤ exText.toList.length) ∧
    (replaceSpan exText.toList 8 18 (placeholder "PERSON")).take 8 =
      exText.toList.take 8 :=
  ⟨⟨le_rfl, by norm_num, by decide⟩,
    redact_mode_c5.2.2 exText.toList 8 18 8 (placeholder "PERSON") le_rfl
      (by norm_num) (by decide)⟩

/-- C6: after any sequence of feedback signals, a detector's weight stays
in `[0.1, 2.0]` — each `report_feedback` applies the clamped exponential
moving average, so no detector is ever fully silenced. -/
theorem weight_bounds_c6 (a : ℚ) (signals : List ℚ) (w : ℚ)
    (h1 : 1/10 ≤ w) (h2 : w ≤ 2) :
    1/10 ≤ applyFeedback a signals w ∧ applyFeedback a signals w ≤ 2 := by
  induction signals generalizing w with
  | nil => exact ⟨h1, h2⟩
  | cons s ss ih =>
    simp only [applyFeedback, List.foldl_cons] at ih ⊢
    have hb1 : 1/10 ≤ updateWeight a s w := by
      unfold updateWeight clampWeight
      split
      next => exact le_rfl
      next h =>
        split
        next => norm_num
        next h3 => linarith [not_le.1 h]
    have hb2 : updateWeight a s w ≤ 2 := by
      unfold updateWeight clampWeight
      split
      next => norm_num
      next h =>
        split
        next => exact le_rfl
        next h3 => linarith [not_le.1 h3]
    exact ih _ hb1 hb2

/-- Witness for C6: with α = 0.1, signals 1 then 0 and initial weight 1,
the final weight stays in `[0.1, 2.0]`. -/
theorem weight_bounds_c6_witness :
    ((1:ℚ)/10 ≤ 1 ∧ (1:ℚ) ≤ 2) ∧
    (1/10 ≤ applyFeedback (1/10) [1, 0] 1 ∧
      applyFeedback (1/10) [1, 0] 1 ≤ 2) :=
  ⟨⟨by norm_num, by norm_num⟩,
    weight_bounds_c6 (1/10) [1, 0] 1 (by norm_num) (by norm_num)⟩

/-- C7 counterexample: applying Redact a second time to its own output
with the same detections does not yield an identical result — re-redacting
`"[PERSON]"` (the output for `"John"`) at the original span `[0, 4)`
mangles it. -/
theorem anonymize_idempotent_counterexample :
    redact (redact "John" [⟨"John", "PERSON", 0, 4, 1⟩])
        [⟨"John", "PERSON", 0, 4, 1⟩] ≠
      redact "John" [⟨"John", "PERSON", 0, 4, 1⟩] := by
  decide

/-- C7 (amended): anonymize with an empty detection list is a safe no-op
returning its input unchanged; consequently a second application to its
own output yields an identical result when that second application's
detection list is empty — not, in general, with the same non-empty
detections. -/
theorem anonymize_noop_c7 (t : String) (ds : List Detection) :
    redact t [] = t ∧ redact (redact t ds) [] = redact t ds :=
  ⟨rfl, rfl⟩

/-- C8: `isAuthenticated` is true exactly when the token is a present,
non-empty string, and after `logout` both `user` and `token` are `null`,
so `isAuthenticated` is false. -/
theorem auth_state_c8 (s : AuthState) :
    (isAuthenticated s = true ↔ ∃ t, s.token = some t ∧ t ≠ "") ∧
    (logout s).user = none ∧ (logout s).token = none ∧
    isAuthenticated (logout s) = false := by
  obtain ⟨u, tok⟩ := s
  refine ⟨?_, rfl, rfl, rfl⟩
  cases tok <;> simp [isAuthenticated]

/-- C9: `formatFileSize` renders `n + " B"` below 1024 bytes, the
one-decimal rounding of `n/1024` with `" KB"` below 1048576, and the
one-decimal rounding of `n/1048576` with `" MB"` otherwise. -/
theorem formatFileSize_c9 (n : Nat) :
    (n < 1024 → formatFileSize n = toString n ++ " B") ∧
    (1024 ≤ n → n < 1048576 →
      formatFileSize n = toFixed1 ((n : ℚ) / 1024) ++ " KB") ∧
    (1048576 ≤ n → formatFileSize n = toFixed1 ((n : ℚ) / 1048576) ++ " MB") := by
  refine ⟨fun h => ?_, fun h1 h2 => ?_, fun h => ?_⟩
  · rw [formatFileSize, if_pos h]
  · rw [formatFileSize, if_neg (by omega), if_pos (by omega)]
  · rw [formatFileSize, if_neg (by omega), if_neg (by omega)]
    norm_num

/-- Witness for C9: the byte counts 500 and 1536 exercise the B and KB
branches. -/
theorem formatFileSize_c9_witness :
    (500 < 1024 ∧ formatFileSize 500 = toString 500 ++ " B") ∧
    (1024 ≤ 1536 ∧ 1536 < 1048576 ∧
      formatFileSize 1536 = toFixed1 ((1536 : ℚ) / 1024) ++ " KB") :=
  ⟨⟨by norm_num, (formatFileSize_c9 500).1 (by norm_num)⟩,
   ⟨by norm_num, by norm_num,
     (formatFileSize_c9 1536).2.1 (by norm_num) (by norm_num)⟩⟩

/-- C10: a user appears in the admin dashboard's filtered list iff the
search term is a case-insensitive substring of the username or email, and
the role filter is `'all'` or equals the user's role. -/
theorem filteredUsers_c10 (users : List AdminUser)
    (searchTerm roleFilter : String) (u : AdminUser) :
    u ∈ filteredUsers users searchTerm roleFilter ↔
      u ∈ users ∧
      (searchTerm.toLower.toList <:+: u.username.toLower.toList ∨
        searchTerm.toLower.toList <:+: u.email.toLower.toList) ∧
      (roleFilter = "all" ∨ u.role = roleFilter) := by
  simp [filteredUsers, List.mem_filter, strIncludes, Bool.and_eq_true,
    Bool.or_eq_true, decide_eq_true_eq, beq_iff_eq, and_assoc]

end Anonyma
